import Mathlib

/-!
Shallow embedding of the task lifecycle reconciliation engine of the
agent-progress overlay.  The event reducer, the session-scoped purge, the
two observed staleness sweeps, the retention view and the clearCompleted
operation are translated from src/unnamed/part_001 and
src/src/hooks/useTasks.ts.  Timestamps are modelled as integers
(milliseconds since epoch); the JavaScript Map is modelled as an
association list with Map semantics (set replaces in place, otherwise
appends).
-/

namespace AgentProgress

/-- Task status, from the union type in part_001 line 10. -/
inductive Status
  | active
  | completed
  | error
deriving DecidableEq

/-- A task record, from the Task interface in part_001 lines 4-14. -/
structure Task where
  id : String
  tool : String
  description : String
  startTime : Int
  endTime : Option Int
  status : Status
  background : Bool
  subagentType : Option String
  sessionId : Option String
deriving DecidableEq

/-- Event kind, from the TaskEvent union in part_001 line 17. -/
inductive EventType
  | task_started
  | task_complete
  | task_error
  | session_stopped
deriving DecidableEq

/-- An incoming event, from the TaskEvent interface in part_001 lines 16-26. -/
structure TaskEvent where
  type : EventType
  task_id : String
  tool : Option String
  description : Option String
  session_id : Option String
  timestamp : Int
  background : Option Bool
  subagent_type : Option String
deriving DecidableEq

/-- The task table: a JavaScript Map from task id to Task, modelled as an
association list in insertion order. -/
abbrev TaskTable := List (String × Task)

/-- Map.get: the value at the first entry whose key matches. -/
def mapGet (table : TaskTable) (k : String) : Option Task :=
  (table.find? fun p => decide (p.1 = k)).map Prod.snd

/-- Map.set: replace the entry with this key in place, or append a new one. -/
def mapSet (table : TaskTable) (k : String) (v : Task) : TaskTable :=
  if table.any fun p => decide (p.1 = k) then
    table.map fun p => if p.1 = k then (k, v) else p
  else
    table ++ [(k, v)]

/-- Number of entries carrying a given key. -/
def countKey (table : TaskTable) (k : String) : Nat :=
  (table.filter fun p => decide (p.1 = k)).length

/-- Well-formedness of the table: keys are pairwise distinct, as in a real
JavaScript Map. -/
def keysNodup (table : TaskTable) : Prop :=
  (table.map Prod.fst).Nodup

/-- The sentinel stored when the tool field is missing (part_001 line 84). -/
def unknownTool : String := "Unknown"

/-- The sentinel stored when the description field is missing (part_001
line 85): three ASCII dots. -/
def runningDesc : String := "Running..."

/-- The spelling of the description sentinel used by the specification
text: a single Unicode horizontal-ellipsis character. -/
def runningDescSpec : String := "Running…"

/-- The empty string, which JavaScript treats as falsy. -/
def emptyStr : String := ""

/-- JavaScript s or-else d on an optional string: undefined and the empty
string are both falsy and yield the default. -/
def jsOrString (s : Option String) (d : String) : String :=
  match s with
  | some v => if v = emptyStr then d else v
  | none => d

/-- The Task record inserted by the task_started branch
(part_001 lines 82-91). -/
def startedTask (data : TaskEvent) : Task :=
  { id := data.task_id
    tool := jsOrString data.tool unknownTool
    description := jsOrString data.description runningDesc
    startTime := data.timestamp
    endTime := none
    status := Status.active
    background := data.background.getD false
    subagentType := data.subagent_type
    sessionId := data.session_id }

/-- Condition under which the session-scoped purge inside the task_started
branch deletes the entry with key id (part_001 lines 68-79): active, same
session as the event, a different id, and started more than 2000 ms before
the event timestamp. -/
def stalePurged (data : TaskEvent) (sid : String) (id : String) (task : Task) : Bool :=
  decide (task.status = Status.active ∧ task.sessionId = some sid ∧
    id ≠ data.task_id ∧ data.timestamp - task.startTime > 2000)

/-- One step of the event reducer inside the listener of part_001
lines 60-112.  The purge runs only when session_id is truthy (present and
non-empty).  The task_complete and task_error branches update whenever the
id is found, with no check of the current status. -/
def applyEvent (prev : TaskTable) (data : TaskEvent) : TaskTable :=
  match data.type with
  | EventType.task_started =>
    let purged : TaskTable :=
      match data.session_id with
      | some sid =>
        if sid = emptyStr then prev
        else prev.filter fun p => !(stalePurged data sid p.1 p.2)
      | none => prev
    mapSet purged data.task_id (startedTask data)
  | EventType.task_complete =>
    match mapGet prev data.task_id with
    | some existing =>
      mapSet prev data.task_id
        { existing with status := Status.completed, endTime := some data.timestamp }
    | none => prev
  | EventType.task_error =>
    match mapGet prev data.task_id with
    | some existing =>
      mapSet prev data.task_id
        { existing with status := Status.error, endTime := some data.timestamp }
    | none => prev
  | EventType.session_stopped =>
    prev.filter fun p => !(decide (p.2.status = Status.active))

/-- Retention cap, part_001 line 28. -/
def MAX_COMPLETED_TASKS : Nat := 5

/-- Sort key used by completedTasks: endTime or-else 0 (part_001 line 40). -/
def endKey (t : Task) : Int := t.endTime.getD 0

/-- A task in a terminal state (part_001 line 39). -/
def isTerminal (t : Task) : Bool :=
  decide (t.status = Status.completed ∨ t.status = Status.error)

/-- The terminal-state subset of the table values (part_001 lines 38-39). -/
def terminalTasks (table : TaskTable) : List Task :=
  (table.map Prod.snd).filter isTerminal

/-- The terminal subset sorted by endTime descending (part_001 line 40);
the JavaScript sort is stable, modelled by mergeSort. -/
def sortedTerminal (table : TaskTable) : List Task :=
  (terminalTasks table).mergeSort fun a b => decide (endKey b ≤ endKey a)

/-- The recent-completed view with an explicit cap: filter, sort by endTime
descending, slice (part_001 lines 38-41, generalised over the cap). -/
def recentTasks (table : TaskTable) (n : Nat) : List Task :=
  (sortedTerminal table).take n

/-- The terminal tasks evicted from view beyond the cap. -/
def evictedTasks (table : TaskTable) (n : Nat) : List Task :=
  (sortedTerminal table).drop n

/-- completedTasks as in the source, with the cap fixed at 5. -/
def completedTasks (table : TaskTable) : List Task :=
  recentTasks table MAX_COMPLETED_TASKS

/-- clearCompleted (part_001 lines 165-175): delete every task whose
status is not active. -/
def clearCompleted (table : TaskTable) : TaskTable :=
  table.filter fun p => !(decide (p.2.status ≠ Status.active))

/-- Staleness threshold of the periodic cleanup in part_001 line 135:
five minutes. -/
def STALE_THRESHOLD_MS : Int := 5 * 60 * 1000

/-- The periodic stale-task cleanup of part_001 lines 134-162: it DELETES
every active task older than STALE_THRESHOLD_MS.  The early return when no
task is stale leaves the table contents unchanged, so the net effect is
this filter. -/
def sweepDeleteStale (now : Int) (table : TaskTable) : TaskTable :=
  table.filter fun p =>
    !(decide (p.2.status = Status.active ∧ now - p.2.startTime > STALE_THRESHOLD_MS))

/-- Staleness threshold of the auto-complete interval in
src/src/hooks/useTasks.ts line 28: thirty seconds. -/
def STALE_TASK_TIMEOUT : Int := 30000

/-- The stale-task auto-complete interval of src/src/hooks/useTasks.ts
lines 107-124: it demotes every active task older than STALE_TASK_TIMEOUT
to error in place, setting endTime to the sweep time; no entry is
deleted. -/
def sweepAutoError (now : Int) (table : TaskTable) : TaskTable :=
  table.map fun p =>
    if p.2.status = Status.active ∧ now - p.2.startTime > STALE_TASK_TIMEOUT then
      (p.1, { p.2 with status := Status.error, endTime := some now })
    else p

/-- Per-task invariant: active exactly when endTime is unset. -/
def taskInv (t : Task) : Bool :=
  decide ((t.status = Status.active) ↔ t.endTime = none)

/-- Table-wide invariant. -/
def tableInv (table : TaskTable) : Bool :=
  table.all fun p => taskInv p.2

/-! ### Lemmas about the Map model -/

theorem mapGet_cons (hd : String × Task) (tl : TaskTable) (k : String) :
    mapGet (hd :: tl) k = if hd.1 = k then some hd.2 else mapGet tl k := by
  by_cases h : hd.1 = k <;> simp [mapGet, List.find?_cons, h]

theorem mem_of_mem_mapSet {l : TaskTable} {k : String} {v : Task} {p : String × Task}
    (h : p ∈ mapSet l k v) : p ∈ l ∨ p = (k, v) := by
  unfold mapSet at h
  split at h
  · rcases List.mem_map.mp h with ⟨q, hq, hfq⟩
    by_cases hk : q.1 = k
    · right
      rw [← hfq]
      simp [hk]
    · left
      rw [← hfq]
      simpa [hk] using hq
  · rcases List.mem_append.mp h with h1 | h1
    · exact Or.inl h1
    · exact Or.inr (by simpa using h1)

theorem mem_mapSet_of_ne {l : TaskTable} {k : String} {v : Task} {id : String} {t : Task}
    (hne : id ≠ k) : (id, t) ∈ mapSet l k v ↔ (id, t) ∈ l := by
  unfold mapSet
  split
  · constructor
    · intro h
      rcases List.mem_map.mp h with ⟨q, hq, hfq⟩
      by_cases hk : q.1 = k
      · rw [if_pos hk] at hfq
        exact absurd (congrArg Prod.fst hfq).symm hne
      · rw [if_neg hk] at hfq
        rwa [hfq] at hq
    · intro h
      refine List.mem_map.mpr ⟨(id, t), h, ?_⟩
      simp [hne]
  · constructor
    · intro h
      rcases List.mem_append.mp h with h1 | h1
      · exact h1
      · simp at h1
        exact absurd h1.1 hne
    · intro h
      exact List.mem_append.mpr (Or.inl h)

theorem mapGet_map_replace (l : TaskTable) (k : String) (v : Task)
    (h : l.any (fun p => decide (p.1 = k)) = true) :
    mapGet (l.map fun p => if p.1 = k then (k, v) else p) k = some v := by
  induction l with
  | nil => simp at h
  | cons hd tl ih =>
    by_cases hk : hd.1 = k
    · simp only [List.map_cons, if_pos hk]
      rw [mapGet_cons]
      simp
    · simp only [List.map_cons, if_neg hk]
      rw [mapGet_cons, if_neg hk]
      apply ih
      simpa [List.any_cons, hk] using h

theorem mapGet_append_new (l : TaskTable) (k : String) (v : Task)
    (h : l.any (fun p => decide (p.1 = k)) = false) :
    mapGet (l ++ [(k, v)]) k = some v := by
  induction l with
  | nil => simp [mapGet]
  | cons hd tl ih =>
    simp only [List.any_cons, Bool.or_eq_false_iff] at h
    have hk : ¬ hd.1 = k := by simpa using h.1
    rw [List.cons_append, mapGet_cons, if_neg hk]
    exact ih h.2

theorem mapGet_mapSet_self (l : TaskTable) (k : String) (v : Task) :
    mapGet (mapSet l k v) k = some v := by
  unfold mapSet
  by_cases h : l.any (fun p => decide (p.1 = k)) = true
  · rw [if_pos h]
    exact mapGet_map_replace l k v h
  · rw [if_neg h]
    exact mapGet_append_new l k v (Bool.eq_false_iff.mpr h)

theorem mapGet_map_replace_ne (l : TaskTable) (k : String) (v : Task) (q : String)
    (hne : q ≠ k) :
    mapGet (l.map fun p => if p.1 = k then (k, v) else p) q = mapGet l q := by
  induction l with
  | nil => simp
  | cons hd tl ih =>
    by_cases hk : hd.1 = k
    · have hq : ¬ hd.1 = q := by
        rw [hk]
        exact fun hc => hne hc.symm
      simp only [List.map_cons, if_pos hk]
      rw [mapGet_cons, mapGet_cons]
      simp only [if_neg hq]
      have hkv : ¬ (k, v).1 = q := fun hc => hne hc.symm
      rw [if_neg hkv]
      exact ih
    · simp only [List.map_cons, if_neg hk]
      rw [mapGet_cons, mapGet_cons]
      by_cases hq : hd.1 = q
      · rw [if_pos hq, if_pos hq]
      · rw [if_neg hq, if_neg hq]
        exact ih

theorem mapGet_append_one_ne (l : TaskTable) (k : String) (v : Task) (q : String)
    (hne : q ≠ k) : mapGet (l ++ [(k, v)]) q = mapGet l q := by
  induction l with
  | nil =>
    have hkv : ¬ (k, v).1 = q := fun hc => hne hc.symm
    simp [mapGet, List.find?_cons, hkv]
  | cons hd tl ih =>
    rw [List.cons_append, mapGet_cons, mapGet_cons]
    by_cases hq : hd.1 = q
    · rw [if_pos hq, if_pos hq]
    · rw [if_neg hq, if_neg hq]
      exact ih

theorem mapGet_mapSet_ne (l : TaskTable) (k : String) (v : Task) (q : String)
    (hne : q ≠ k) : mapGet (mapSet l k v) q = mapGet l q := by
  unfold mapSet
  split
  · exact mapGet_map_replace_ne l k v q hne
  · exact mapGet_append_one_ne l k v q hne

theorem countKey_eq_zero {l : TaskTable} {k : String} (h : ∀ p ∈ l, p.1 ≠ k) :
    countKey l k = 0 := by
  unfold countKey
  rw [List.length_eq_zero]
  rw [List.filter_eq_nil_iff]
  intro p hp
  simpa using h p hp

theorem countKey_eq_one {l : TaskTable} {k : String} (hnd : keysNodup l)
    (h : (mapGet l k).isSome = true) : countKey l k = 1 := by
  induction l with
  | nil => simp [mapGet] at h
  | cons hd tl ih =>
    have hnd' : hd.1 ∉ tl.map Prod.fst ∧ keysNodup tl := by
      unfold keysNodup at hnd
      rw [List.map_cons, List.nodup_cons] at hnd
      exact hnd
    by_cases hk : hd.1 = k
    · have htl : countKey tl k = 0 := by
        apply countKey_eq_zero
        intro p hp hpk
        exact hnd'.1 (List.mem_map.mpr ⟨p, hp, by rw [hpk, hk]⟩)
      unfold countKey at htl ⊢
      rw [List.filter_cons_of_pos (by simpa using hk)]
      rw [List.length_cons, htl]
    · unfold countKey
      rw [List.filter_cons_of_neg (by simpa using hk)]
      rw [mapGet_cons, if_neg hk] at h
      exact ih hnd'.2 h

theorem keysNodup_filter {l : TaskTable} (q : String × Task → Bool) (h : keysNodup l) :
    keysNodup (l.filter q) :=
  List.Nodup.sublist (List.Sublist.map Prod.fst (List.filter_sublist l)) h

theorem keysNodup_mapSet {l : TaskTable} {k : String} {v : Task} (h : keysNodup l) :
    keysNodup (mapSet l k v) := by
  unfold mapSet
  split
  · have hkeys : (l.map fun p => if p.1 = k then (k, v) else p).map Prod.fst
        = l.map Prod.fst := by
      rw [List.map_map]
      apply List.map_congr_left
      intro p _
      by_cases hk : p.1 = k <;> simp [hk]
    unfold keysNodup
    rw [hkeys]
    exact h
  · rename_i hany
    have hnotin : k ∉ l.map Prod.fst := by
      intro hc
      rcases List.mem_map.mp hc with ⟨p, hp, hpk⟩
      have hdec : (fun p : String × Task => decide (p.1 = k)) p = true :=
        decide_eq_true hpk
      exact hany (List.any_eq_true.mpr ⟨p, hp, hdec⟩)
    unfold keysNodup
    rw [List.map_append]
    simp only [List.map_cons, List.map_nil]
    rw [List.nodup_append]
    refine ⟨h, List.nodup_singleton k, ?_⟩
    intro a ha hb
    simp at hb
    rw [hb] at ha
    exact hnotin ha

/-! ### Structural lemmas about the event reducer -/

theorem mapGet_applyEvent_started (table : TaskTable) (e : TaskEvent)
    (h : e.type = EventType.task_started) :
    mapGet (applyEvent table e) e.task_id = some (startedTask e) := by
  obtain ⟨ty, tid, tool, desc, sid, ts, bg, sub⟩ := e
  subst h
  simp only [applyEvent]
  exact mapGet_mapSet_self _ _ _

theorem applyEvent_complete_found (table : TaskTable) (e : TaskEvent) (t : Task)
    (h : e.type = EventType.task_complete)
    (hf : mapGet table e.task_id = some t) :
    applyEvent table e =
      mapSet table e.task_id
        { t with status := Status.completed, endTime := some e.timestamp } := by
  obtain ⟨ty, tid, tool, desc, sid, ts, bg, sub⟩ := e
  subst h
  simp only [applyEvent] at *
  rw [hf]

theorem applyEvent_error_found (table : TaskTable) (e : TaskEvent) (t : Task)
    (h : e.type = EventType.task_error)
    (hf : mapGet table e.task_id = some t) :
    applyEvent table e =
      mapSet table e.task_id
        { t with status := Status.error, endTime := some e.timestamp } := by
  obtain ⟨ty, tid, tool, desc, sid, ts, bg, sub⟩ := e
  subst h
  simp only [applyEvent] at *
  rw [hf]

theorem applyEvent_keysNodup (table : TaskTable) (e : TaskEvent)
    (h : keysNodup table) : keysNodup (applyEvent table e) := by
  obtain ⟨ty, tid, tool, desc, sid, ts, bg, sub⟩ := e
  cases ty with
  | task_started =>
    simp only [applyEvent]
    apply keysNodup_mapSet
    cases sid with
    | none => exact h
    | some s =>
      simp only []
      split
      · exact h
      · exact keysNodup_filter _ h
  | task_complete =>
    simp only [applyEvent]
    cases hf : mapGet table tid with
    | none => exact h
    | some t => exact keysNodup_mapSet h
  | task_error =>
    simp only [applyEvent]
    cases hf : mapGet table tid with
    | none => exact h
    | some t => exact keysNodup_mapSet h
  | session_stopped =>
    exact keysNodup_filter _ h

/-! ### Concrete sample data used by counterexamples and witnesses -/

/-- Sample task id. -/
def idA : String := "t1"

/-- Second sample task id. -/
def idB : String := "t2"

/-- Third sample task id. -/
def idC : String := "t3"

/-- Sample session id. -/
def sessionS1 : String := "s1"

/-- A task already completed at time 5. -/
def doneTask : Task :=
  { id := idA, tool := unknownTool, description := runningDesc, startTime := 0,
    endTime := some 5, status := Status.completed, background := false,
    subagentType := none, sessionId := none }

/-- A task_error event for idA at time 10. -/
def errEvent : TaskEvent :=
  { type := EventType.task_error, task_id := idA, tool := none, description := none,
    session_id := none, timestamp := 10, background := none, subagent_type := none }

/-- A task_started event for idA in session s1 at time 1000. -/
def startEventA : TaskEvent :=
  { type := EventType.task_started, task_id := idA, tool := none, description := none,
    session_id := some sessionS1, timestamp := 1000, background := none,
    subagent_type := none }

/-- A task_started event for idB in session s1 at time 4000. -/
def startEventB : TaskEvent :=
  { type := EventType.task_started, task_id := idB, tool := none, description := none,
    session_id := some sessionS1, timestamp := 4000, background := none,
    subagent_type := none }

/-- The task inserted by startEventA. -/
def taskA : Task := startedTask startEventA

/-- A task_complete event for idA at time 5000. -/
def completeEventA : TaskEvent :=
  { type := EventType.task_complete, task_id := idA, tool := none, description := none,
    session_id := none, timestamp := 5000, background := none, subagent_type := none }

/-- A session_stopped event at time 7000. -/
def stopEvent : TaskEvent :=
  { type := EventType.session_stopped, task_id := idC, tool := none, description := none,
    session_id := none, timestamp := 7000, background := none, subagent_type := none }

/-- An active task started at time 0 with no session. -/
def staleTask : Task :=
  { id := idB, tool := unknownTool, description := runningDesc, startTime := 0,
    endTime := none, status := Status.active, background := false,
    subagentType := none, sessionId := none }

/-- A task_started event for idC carrying no description. -/
def startNoDesc : TaskEvent :=
  { type := EventType.task_started, task_id := idC, tool := none, description := none,
    session_id := none, timestamp := 100, background := none, subagent_type := none }

/-! ### Claim theorems -/

/-- C1 counterexample: the task_complete and task_error branches check only
that the id is found, not that the status is active.  Applying a task_error
event to a table whose only task is already completed overwrites the
terminal status and endedAt, contradicting the claim that a non-active task
is left unchanged. -/
theorem c1_counterexample :
    doneTask.status = Status.completed ∧ doneTask.endTime = some 5 ∧
    (mapGet (applyEvent [(idA, doneTask)] errEvent) idA).map Task.status
      = some Status.error ∧
    (mapGet (applyEvent [(idA, doneTask)] errEvent) idA).map Task.endTime
      = some (some 10) := by
  decide

/-- C1 amended: a task_complete or task_error event whose taskId is found
updates that task unconditionally, setting status to completed or error
respectively and endedAt to the event timestamp, regardless of whether the
current status is active; so a terminal status is not preserved under late
complete or error events. -/
theorem c1_amended_theorem (prev : TaskTable) (data : TaskEvent) (t : Task)
    (hfound : mapGet prev data.task_id = some t)
    (htype : data.type = EventType.task_complete ∨ data.type = EventType.task_error) :
    mapGet (applyEvent prev data) data.task_id =
      some { t with
              status := if data.type = EventType.task_error then Status.error
                        else Status.completed,
              endTime := some data.timestamp } := by
  rcases htype with h | h
  · rw [applyEvent_complete_found prev data t h hfound]
    rw [mapGet_mapSet_self]
    rw [h]
    simp
  · rw [applyEvent_error_found prev data t h hfound]
    rw [mapGet_mapSet_self]
    rw [h]
    simp

/-- Witness for the amended C1 theorem at a concrete completed task. -/
theorem c1_witness :
    mapGet [(idA, doneTask)] errEvent.task_id = some doneTask ∧
    mapGet (applyEvent [(idA, doneTask)] errEvent) errEvent.task_id =
      some { doneTask with
              status := if errEvent.type = EventType.task_error then Status.error
                        else Status.completed,
              endTime := some errEvent.timestamp } :=
  ⟨by decide, c1_amended_theorem [(idA, doneTask)] errEvent doneTask (by decide) (Or.inr rfl)⟩

/-- C2 counterexample: the periodic cleanup of part_001 DELETES an active
task older than its five-minute threshold instead of demoting it to error;
after the sweep the task is gone from the table, contradicting the claim
that it remains present with status error. -/
theorem c2_counterexample :
    staleTask.status = Status.active ∧
    (300001 : Int) - staleTask.startTime > STALE_THRESHOLD_MS ∧
    mapGet (sweepDeleteStale 300001 [(idB, staleTask)]) idB = none := by
  decide

/-- C2 amended: the stale-task sweep of src/src/hooks/useTasks.ts demotes
in place: every active task whose elapsed time exceeds the 30000 ms
threshold is transitioned to error with endedAt set to the sweep time and
stays in the table (the sweep never changes the number of entries); the
sweep of src/unnamed/part_001 instead deletes active tasks older than five
minutes. -/
theorem c2_amended_theorem (now : Int) (table : TaskTable) (id : String) (t : Task)
    (hmem : (id, t) ∈ table) (hact : t.status = Status.active)
    (hstale : now - t.startTime > STALE_TASK_TIMEOUT) :
    (id, { t with status := Status.error, endTime := some now }) ∈
      sweepAutoError now table ∧
    (sweepAutoError now table).length = table.length := by
  constructor
  · refine List.mem_map.mpr ⟨(id, t), hmem, ?_⟩
    rw [if_pos ⟨hact, hstale⟩]
  · exact List.length_map _ _

/-- Witness for the amended C2 theorem at a concrete stale active task. -/
theorem c2_witness :
    (idB, staleTask) ∈ [(idB, staleTask)] ∧
    staleTask.status = Status.active ∧
    (30001 : Int) - staleTask.startTime > STALE_TASK_TIMEOUT ∧
    (idB, { staleTask with status := Status.error, endTime := some 30001 }) ∈
      sweepAutoError 30001 [(idB, staleTask)] ∧
    (sweepAutoError 30001 [(idB, staleTask)]).length = [(idB, staleTask)].length := by
  refine ⟨by decide, by decide, by decide, ?_⟩
  exact c2_amended_theorem 30001 [(idB, staleTask)] idB staleTask (by decide)
    (by decide) (by decide)

/-- C3: a task_complete or task_error event whose taskId is not in the
table leaves the table exactly unchanged: no task is created, none is
modified, and no failure occurs (the reducer is total). -/
theorem c3_unknown_id_noop (prev : TaskTable) (data : TaskEvent)
    (htype : data.type = EventType.task_complete ∨ data.type = EventType.task_error)
    (hmiss : mapGet prev data.task_id = none) :
    applyEvent prev data = prev := by
  obtain ⟨ty, tid, tool, desc, sid, ts, bg, sub⟩ := data
  rcases htype with h | h <;> subst h <;> simp only [applyEvent] at * <;> rw [hmiss]

/-- Witness for C3 at a concrete empty table. -/
theorem c3_witness :
    (errEvent.type = EventType.task_complete ∨ errEvent.type = EventType.task_error) ∧
    mapGet [] errEvent.task_id = none ∧
    applyEvent [] errEvent = [] :=
  ⟨Or.inr rfl, rfl, c3_unknown_id_noop [] errEvent (Or.inr rfl) rfl⟩

/-- C9 counterexample: the stored description sentinel in the code is the
three-ASCII-dot string, which differs from the single-character horizontal
ellipsis spelling used by the claim. -/
theorem c9_counterexample :
    (mapGet (applyEvent [] startNoDesc) idC).map Task.description
      = some runningDesc ∧
    runningDesc ≠ runningDescSpec := by
  decide

/-- C9 amended: every task_started event upserts a task keyed by its
taskId with status active and startedAt equal to the event timestamp; a
missing tool field is stored as the sentinel Unknown and a missing
description field as the sentinel Running followed by three ASCII dots. -/
theorem c9_amended_theorem (table : TaskTable) (e : TaskEvent)
    (h : e.type = EventType.task_started) :
    mapGet (applyEvent table e) e.task_id = some (startedTask e) ∧
    (startedTask e).status = Status.active ∧
    (startedTask e).startTime = e.timestamp ∧
    (e.tool = none → (startedTask e).tool = unknownTool) ∧
    (e.description = none → (startedTask e).description = runningDesc) := by
  refine ⟨mapGet_applyEvent_started table e h, rfl, rfl, ?_, ?_⟩
  · intro ht
    simp [startedTask, jsOrString, ht]
  · intro hd
    simp [startedTask, jsOrString, hd]

/-- Witness for the amended C9 theorem at a concrete event with missing
tool and description. -/
theorem c9_witness :
    startNoDesc.type = EventType.task_started ∧
    (mapGet (applyEvent [] startNoDesc) startNoDesc.task_id = some (startedTask startNoDesc) ∧
      (startedTask startNoDesc).status = Status.active ∧
      (startedTask startNoDesc).startTime = startNoDesc.timestamp ∧
      (startNoDesc.tool = none → (startedTask startNoDesc).tool = unknownTool) ∧
      (startNoDesc.description = none →
        (startedTask startNoDesc).description = runningDesc)) :=
  ⟨rfl, c9_amended_theorem [] startNoDesc rfl⟩

/-- C10: clearCompleted deletes exactly the tasks whose status is not
active; an entry survives, with all fields unchanged, exactly when its
status is active. -/
theorem c10_clear_completed (table : TaskTable) (id : String) (t : Task) :
    ((id, t) ∈ clearCompleted table ↔ (id, t) ∈ table ∧ t.status = Status.active) := by
  simp [clearCompleted, List.mem_filter]

/-- C4: a task_started event carrying a (truthy) sessionId first purges
from the table exactly the other tasks that are active, belong to the same
session, and started more than 2000 ms before the event timestamp; any
other entry with a different id survives the purge unchanged. -/
theorem c4_session_purge (prev : TaskTable) (data : TaskEvent) (sid : String)
    (id : String) (t : Task)
    (htype : data.type = EventType.task_started)
    (hsid : data.session_id = some sid) (hss : sid ≠ emptyStr)
    (hmem : (id, t) ∈ prev) (hne : id ≠ data.task_id) :
    ((id, t) ∈ applyEvent prev data ↔
      ¬(t.status = Status.active ∧ t.sessionId = some sid ∧
        data.timestamp - t.startTime > 2000)) := by
  obtain ⟨ty, tid, tool, desc, sid0, ts, bg, sub⟩ := data
  simp only at htype hsid hne
  subst htype
  subst hsid
  simp only [applyEvent]
  rw [mem_mapSet_of_ne hne]
  rw [if_neg hss]
  rw [List.mem_filter]
  simp only [stalePurged, Bool.not_eq_eq_eq_not, Bool.not_true, decide_eq_false_iff_not]
  constructor
  · intro h hc
    exact h.2 ⟨hc.1, hc.2.1, hne, hc.2.2⟩
  · intro h
    exact ⟨hmem, fun hc => h ⟨hc.1, hc.2.1, hc.2.2.2⟩⟩

/-- Witness for C4: the spec scenario with task A started at 1000 and task
B started at 4000 in the same session; A meets every purge condition and is
deleted. -/
theorem c4_witness :
    startEventB.type = EventType.task_started ∧
    startEventB.session_id = some sessionS1 ∧
    sessionS1 ≠ emptyStr ∧
    (idA, taskA) ∈ [(idA, taskA)] ∧
    idA ≠ startEventB.task_id ∧
    ((idA, taskA) ∈ applyEvent [(idA, taskA)] startEventB ↔
      ¬(taskA.status = Status.active ∧ taskA.sessionId = some sessionS1 ∧
        startEventB.timestamp - taskA.startTime > 2000)) :=
  ⟨rfl, rfl, by decide, by decide, by decide,
    c4_session_purge [(idA, taskA)] startEventB sessionS1 idA taskA rfl rfl
      (by decide) (by decide) (by decide)⟩

/-- C6: session_stopped deletes every active task globally, whatever its
session, and leaves every terminal task in place unchanged. -/
theorem c6_session_stop (prev : TaskTable) (data : TaskEvent)
    (htype : data.type = EventType.session_stopped) (id : String) (t : Task) :
    ((id, t) ∈ applyEvent prev data ↔ (id, t) ∈ prev ∧ t.status ≠ Status.active) := by
  obtain ⟨ty, tid, tool, desc, sid, ts, bg, sub⟩ := data
  simp only at htype
  subst htype
  simp [applyEvent, List.mem_filter]

/-- Witness for C6 at a table with one completed and one active task. -/
theorem c6_witness :
    stopEvent.type = EventType.session_stopped ∧
    ((idA, doneTask) ∈ applyEvent [(idA, doneTask), (idB, staleTask)] stopEvent ↔
      (idA, doneTask) ∈ [(idA, doneTask), (idB, staleTask)] ∧
        doneTask.status ≠ Status.active) :=
  ⟨rfl, c6_session_stop [(idA, doneTask), (idB, staleTask)] stopEvent rfl idA doneTask⟩

/-- C7: the per-task invariant, status active exactly when endedAt unset,
is preserved by every operation: the event reducer for every event kind,
both observed staleness sweeps, and clearCompleted. -/
theorem c7_invariant (table : TaskTable) (hinv : tableInv table = true)
    (e : TaskEvent) (now : Int) :
    tableInv (applyEvent table e) = true ∧
    tableInv (sweepAutoError now table) = true ∧
    tableInv (sweepDeleteStale now table) = true ∧
    tableInv (clearCompleted table) = true := by
  have hall : ∀ p ∈ table, taskInv p.2 = true := by
    simpa [tableInv, List.all_eq_true] using hinv
  refine ⟨?_, ?_, ?_, ?_⟩
  · obtain ⟨ty, tid, tool, desc, sid, ts, bg, sub⟩ := e
    cases ty with
    | task_started =>
      cases sid with
      | none =>
        simp only [applyEvent, tableInv, List.all_eq_true]
        intro p hp
        rcases mem_of_mem_mapSet hp with hin | heq
        · exact hall p hin
        · rw [heq]
          simp [taskInv, startedTask]
      | some s =>
        simp only [applyEvent, tableInv, List.all_eq_true]
        intro p hp
        rcases mem_of_mem_mapSet hp with hin | heq
        · split at hin
          · exact hall p hin
          · exact hall p (List.mem_of_mem_filter hin)
        · rw [heq]
          simp [taskInv, startedTask]
    | task_complete =>
      simp only [applyEvent]
      cases hf : mapGet table tid with
      | none => simpa [tableInv, List.all_eq_true] using hall
      | some ex =>
        simp only [tableInv, List.all_eq_true]
        intro p hp
        rcases mem_of_mem_mapSet hp with hin | heq
        · exact hall p hin
        · rw [heq]
          simp [taskInv]
    | task_error =>
      simp only [applyEvent]
      cases hf : mapGet table tid with
      | none => simpa [tableInv, List.all_eq_true] using hall
      | some ex =>
        simp only [tableInv, List.all_eq_true]
        intro p hp
        rcases mem_of_mem_mapSet hp with hin | heq
        · exact hall p hin
        · rw [heq]
          simp [taskInv]
    | session_stopped =>
      simp only [applyEvent, tableInv, List.all_eq_true]
      intro p hp
      exact hall p (List.mem_of_mem_filter hp)
  · simp only [sweepAutoError, tableInv, List.all_eq_true]
    intro p hp
    rcases List.mem_map.mp hp with ⟨q, hq, hfq⟩
    by_cases hc : q.2.status = Status.active ∧ now - q.2.startTime > STALE_TASK_TIMEOUT
    · rw [if_pos hc] at hfq
      rw [← hfq]
      simp [taskInv]
    · rw [if_neg hc] at hfq
      rw [← hfq]
      exact hall q hq
  · simp only [sweepDeleteStale, tableInv, List.all_eq_true]
    intro p hp
    exact hall p (List.mem_of_mem_filter hp)
  · simp only [clearCompleted, tableInv, List.all_eq_true]
    intro p hp
    exact hall p (List.mem_of_mem_filter hp)

/-- Witness for C7 at a concrete one-task table satisfying the invariant. -/
theorem c7_witness :
    tableInv [(idA, taskA)] = true ∧
    (tableInv (applyEvent [(idA, taskA)] completeEventA) = true ∧
      tableInv (sweepAutoError 2000 [(idA, taskA)]) = true ∧
      tableInv (sweepDeleteStale 2000 [(idA, taskA)]) = true ∧
      tableInv (clearCompleted [(idA, taskA)]) = true) :=
  ⟨by decide, c7_invariant [(idA, taskA)] (by decide) completeEventA 2000⟩

/-- Transitivity of the descending endTime comparator. -/
theorem endKeyLe_trans : ∀ a b c : Task,
    decide (endKey b ≤ endKey a) → decide (endKey c ≤ endKey b) →
    decide (endKey c ≤ endKey a) := by
  intro a b c hab hbc
  exact decide_eq_true (le_trans (of_decide_eq_true hbc) (of_decide_eq_true hab))

/-- Totality of the descending endTime comparator. -/
theorem endKeyLe_total : ∀ a b : Task,
    decide (endKey b ≤ endKey a) || decide (endKey a ≤ endKey b) := by
  intro a b
  rcases le_total (endKey b) (endKey a) with h | h <;> simp [h]

/-- The sorted terminal list is pairwise non-increasing on endKey. -/
theorem sortedTerminal_pairwise (table : TaskTable) :
    (sortedTerminal table).Pairwise (fun a b => endKey b ≤ endKey a) := by
  have h := @List.sorted_mergeSort Task (fun a b => decide (endKey b ≤ endKey a))
    endKeyLe_trans endKeyLe_total (terminalTasks table)
  exact h.imp fun hab => of_decide_eq_true hab

/-- C5: for every table state and every cap, the recent view contains only
terminal tasks, has at most cap entries, is non-increasing on the endTime
sort key, and together with the evicted tasks is a permutation of the
terminal subset in which every evicted task ended no later than every
retained one: eviction is by oldest endedAt first. -/
theorem c5_retention (table : TaskTable) (n : Nat) :
    (∀ t ∈ recentTasks table n,
      t.status = Status.completed ∨ t.status = Status.error) ∧
    (recentTasks table n).length ≤ n ∧
    (recentTasks table n).Pairwise (fun a b => endKey b ≤ endKey a) ∧
    (recentTasks table n ++ evictedTasks table n).Perm (terminalTasks table) ∧
    (∀ a ∈ recentTasks table n, ∀ b ∈ evictedTasks table n,
      endKey b ≤ endKey a) := by
  have hsorted := sortedTerminal_pairwise table
  have hsplit : recentTasks table n ++ evictedTasks table n = sortedTerminal table :=
    List.take_append_drop n (sortedTerminal table)
  refine ⟨?_, ?_, ?_, ?_, ?_⟩
  · intro t ht
    have h1 : t ∈ sortedTerminal table := List.take_subset n _ ht
    have h2 : t ∈ terminalTasks table := by
      unfold sortedTerminal at h1
      exact List.mem_mergeSort.mp h1
    have h3 := (List.mem_filter.mp h2).2
    exact of_decide_eq_true h3
  · rw [recentTasks, List.length_take]
    exact min_le_left n _
  · exact List.Pairwise.sublist (List.take_sublist n _) hsorted
  · rw [hsplit]
    exact List.mergeSort_perm _ _
  · have hp : (recentTasks table n ++ evictedTasks table n).Pairwise
        (fun a b => endKey b ≤ endKey a) := by
      rw [hsplit]
      exact hsorted
    have := (List.pairwise_append.mp hp).2.2
    intro a ha b hb
    exact this a ha b hb

/-- C8: starting a task and immediately completing it, with the completion
timestamp not earlier than the start, leaves exactly one entry with that
id, whose status is completed and whose endedAt is at least its
startedAt. -/
theorem c8_start_complete (table : TaskTable) (e1 e2 : TaskEvent)
    (hnd : keysNodup table)
    (h1 : e1.type = EventType.task_started)
    (h2 : e2.type = EventType.task_complete)
    (hid : e2.task_id = e1.task_id)
    (hts : e1.timestamp ≤ e2.timestamp) :
    countKey (applyEvent (applyEvent table e1) e2) e1.task_id = 1 ∧
    ∃ t : Task,
      mapGet (applyEvent (applyEvent table e1) e2) e1.task_id = some t ∧
      t.status = Status.completed ∧ t.endTime = some e2.timestamp ∧
      t.startTime ≤ e2.timestamp := by
  have hget1 : mapGet (applyEvent table e1) e2.task_id = some (startedTask e1) := by
    rw [hid]
    exact mapGet_applyEvent_started table e1 h1
  have hstep : applyEvent (applyEvent table e1) e2 =
      mapSet (applyEvent table e1) e2.task_id
        { startedTask e1 with status := Status.completed, endTime := some e2.timestamp } :=
    applyEvent_complete_found _ e2 _ h2 hget1
  have hget2 : mapGet (applyEvent (applyEvent table e1) e2) e1.task_id =
      some { startedTask e1 with
              status := Status.completed, endTime := some e2.timestamp } := by
    rw [hstep, ← hid]
    exact mapGet_mapSet_self _ _ _
  have hnd2 : keysNodup (applyEvent (applyEvent table e1) e2) :=
    applyEvent_keysNodup _ e2 (applyEvent_keysNodup _ e1 hnd)
  refine ⟨?_, ?_⟩
  · exact countKey_eq_one hnd2 (by rw [hget2]; rfl)
  · refine ⟨_, hget2, rfl, rfl, ?_⟩
    simpa [startedTask] using hts

/-- Witness for C8: the spec scenario, start at 1000 then complete at
5000. -/
theorem c8_witness :
    keysNodup ([] : TaskTable) ∧
    startEventA.type = EventType.task_started ∧
    completeEventA.type = EventType.task_complete ∧
    completeEventA.task_id = startEventA.task_id ∧
    startEventA.timestamp ≤ completeEventA.timestamp ∧
    (countKey (applyEvent (applyEvent [] startEventA) completeEventA)
        startEventA.task_id = 1 ∧
      ∃ t : Task,
        mapGet (applyEvent (applyEvent [] startEventA) completeEventA)
            startEventA.task_id = some t ∧
        t.status = Status.completed ∧ t.endTime = some completeEventA.timestamp ∧
        t.startTime ≤ completeEventA.timestamp) :=
  ⟨by simp [keysNodup], rfl, rfl, rfl, by decide,
    c8_start_complete [] startEventA completeEventA (by simp [keysNodup]) rfl rfl rfl
      (by decide)⟩

end AgentProgress
